import Mathlib

/-!
# Charon routing engine: shallow embedding and verification

This file embeds the routing core of the Charon drifter-wormhole tracker
(`drifter_tracker.py`, `eve_sde_loader.py`, `security_utils.py`) in Lean 4
and proves properties of it.

Modelling conventions:
* Timestamps are integer seconds (`Int`).  The Python code stores ISO strings
  and parses them with `datetime.fromisoformat`; a scan timestamp is modelled
  as `Option Int`, with `none` standing for a string that fails to parse
  (the `except: pass` branch of `build_connection_graph`).
* Edge costs in the pathfinder are floats `1.0` (gate) and `0.3` (jumpbridge)
  in Python; here they are scaled by 10 to the naturals `10` and `3`, which
  agrees with float arithmetic on all inputs considered in this file.
* Python dictionaries keyed by system are modelled as association lists in
  insertion order; Python's substring test `needle in hay` on strings is
  modelled by `strContains`.
-/

namespace Charon

/-- A wormhole scan record, the fields of `self.scans` entries that the
routing core reads (`system`, `holeType`, `lifeStatus`, `massStatus`,
`scannedAt`).  `scannedAt = none` models a timestamp string on which
`datetime.fromisoformat` raises. -/
structure Scan where
  system : String
  holeType : String
  lifeStatus : String
  massStatus : String
  scannedAt : Option Int
  deriving DecidableEq, Repr

/-- `calculate_spawn_time` from `drifter_tracker.py`: back-dates the scan
time according to the life status (Fresh → unchanged, Destabilizing → −4h,
Critical → −24h, anything else → unchanged). -/
def calculate_spawn_time (life_status : String) (scan_time : Int) : Int :=
  if life_status = "Fresh" then scan_time
  else if life_status = "Destabilizing" then scan_time - 4 * 3600
  else if life_status = "Critical" then scan_time - 24 * 3600
  else scan_time

/-- The `LIFETIME_HOURS` table of `build_connection_graph`, in seconds
(Fresh 24h, Destabilizing 4h, Critical 0.25h), with the `.get(…, 24)`
default of 24h for any other status. -/
def lifetimeSeconds (life_status : String) : Int :=
  if life_status = "Fresh" then 86400
  else if life_status = "Destabilizing" then 14400
  else if life_status = "Critical" then 900
  else 86400

/-- The expiry test of `build_connection_graph`:
`age = now - scannedAt; age > timedelta(hours=lifetime)`.
A scan whose timestamp does not parse is not treated as expired
(the `except: pass` branch). -/
def scanExpired (now : Int) (s : Scan) : Bool :=
  match s.scannedAt with
  | none => false
  | some t => decide (now - t > lifetimeSeconds s.lifeStatus)

/-- The first phase of `build_connection_graph`: drop `holeType == 'None'`
scans and expired scans, keeping source order. -/
def active_wormholes (scans : List Scan) (now : Int) : List Scan :=
  scans.filter (fun s => s.holeType ≠ "None" && !scanExpired now s)

/-- The connection graph: `{system: [(connected_system, wormhole_data), …]}`
as an association list in key-insertion order. -/
abbrev Conns := List (String × List (String × Scan))

/-- Dictionary lookup `connections.get(k)`. -/
def connsFind (c : Conns) (k : String) : Option (List (String × Scan)) :=
  match c.find? (fun p => p.1 = k) with
  | some p => some p.2
  | none => none

/-- `if system_a not in connections: connections[system_a] = []`. -/
def connsEnsure (c : Conns) (k : String) : Conns :=
  match connsFind c k with
  | some _ => c
  | none => c ++ [(k, [])]

/-- `connections[k].append(e)` (inserting the key if absent, which the
builder never relies on because it ensures the key first). -/
def connsAppend (c : Conns) (k : String) (e : String × Scan) : Conns :=
  match c with
  | [] => [(k, [e])]
  | (k', l) :: rest =>
    if k' = k then (k', l ++ [e]) :: rest else (k', l) :: connsAppend rest k e

/-- The body of the inner `for j, other_scan in enumerate(active_wormholes)`
loop of `build_connection_graph`: skip `i == j`, connect only equal hole
types, storing the destination wormhole data. -/
def connect_step (iscan : Nat × Scan) (cs : Conns) (jother : Nat × Scan) : Conns :=
  if iscan.1 = jother.1 then cs
  else if iscan.2.holeType = jother.2.holeType then
    connsAppend cs iscan.2.system (jother.2.system, jother.2)
  else cs

/-- The body of the outer `for i, scan in enumerate(active_wormholes)` loop
of `build_connection_graph`: ensure the key, then run the inner loop. -/
def connect_outer (active : List Scan) (conns : Conns) (iscan : Nat × Scan) : Conns :=
  active.enum.foldl (connect_step iscan) (connsEnsure conns iscan.2.system)

/-- `build_connection_graph` from `drifter_tracker.py`: filter to active
wormholes, then for every enumerated pair `i ≠ j` of active scans with equal
`holeType` append the directed edge
`connections[scan_i.system] += [(scan_j.system, scan_j)]`. -/
def build_connection_graph (scans : List Scan) (now : Int) : Conns :=
  (active_wormholes scans now).enum.foldl
    (connect_outer (active_wormholes scans now)) []

/-- An edge `s → (t, o)` is present in the connection graph `c`. -/
def edgeIn (c : Conns) (s t : String) (o : Scan) : Prop :=
  ∃ l, connsFind c s = some l ∧ (t, o) ∈ l

instance (c : Conns) (s t : String) (o : Scan) : Decidable (edgeIn c s t o) := by
  unfold edgeIn
  exact inferInstance

/-- Total number of directed edges stored in the graph. -/
def totalEdges (c : Conns) : Nat :=
  (c.map (fun p => p.2.length)).sum

/-! ## The static pathfinder (`eve_sde_loader.py`) -/

/-- The fields of `EVESDELoader` that `find_path` reads: name↔id maps and the
gate / jumpbridge adjacency dictionaries (a system absent from a dictionary
is modelled by an empty neighbour list). -/
structure SdeLoader where
  system_name_to_id : String → Option Nat
  system_id_to_name : Nat → String
  system_jumps : Nat → List Nat
  jumpbridges : Nat → List Nat

/-- One priority-queue entry `(cost, current_id, path)` of `find_path`.
Costs are scaled by 10: a gate hop adds 10, a jumpbridge hop adds 3. -/
structure PQEntry where
  cost : Nat
  node : Nat
  path : List Nat
  deriving DecidableEq, Repr

/-- Strict lexicographic order on `List Nat`, as Python compares lists. -/
def listLt : List Nat → List Nat → Bool
  | _, [] => false
  | [], _ :: _ => true
  | a :: as, b :: bs =>
    if a < b then true else if b < a then false else listLt as bs

/-- Python's lexicographic order on the tuples `(cost, current_id, path)`,
which is what `heapq` pops by. -/
def entryLt (a b : PQEntry) : Bool :=
  if a.cost < b.cost then true
  else if b.cost < a.cost then false
  else if a.node < b.node then true
  else if b.node < a.node then false
  else listLt a.path b.path

/-- The minimum of the queue under `entryLt` (what `heapq.heappop` returns). -/
def pqMin : List PQEntry → Option PQEntry
  | [] => none
  | e :: rest => some (rest.foldl (fun b f => if entryLt f b then f else b) e)

/-- Remove the first occurrence of an entry from the queue. -/
def pqRemove (x : PQEntry) : List PQEntry → List PQEntry
  | [] => []
  | e :: rest => if e = x then rest else e :: pqRemove x rest

/-- `heapq.heappop`: extract a minimal entry and the remaining queue. -/
def popMin (pq : List PQEntry) : Option (PQEntry × List PQEntry) :=
  match pqMin pq with
  | none => none
  | some m => some (m, pqRemove m pq)

/-- `visited.get(n)` for the `visited` dictionary `{system_id: min_cost}`. -/
def visitedGet (v : List (Nat × Nat)) (n : Nat) : Option Nat :=
  match v.find? (fun p => p.1 = n) with
  | some p => some p.2
  | none => none

/-- `visited[n] = c`. -/
def visitedSet (v : List (Nat × Nat)) (n c : Nat) : List (Nat × Nat) :=
  match v with
  | [] => [(n, c)]
  | (m, d) :: rest =>
    if m = n then (n, c) :: rest else (m, d) :: visitedSet rest n c

/-- One neighbour-expansion loop of `find_path`: for each `next_id` push
`(cost + w, next_id, path + [next_id])` unless `next_id` is already visited
at a cost `≤ cost + w`. -/
def pushNeighbors (visited : List (Nat × Nat)) (cost : Nat) (path : List Nat)
    (w : Nat) (neighbors : List Nat) (pq : List PQEntry) : List PQEntry :=
  neighbors.foldl
    (fun q next =>
      match visitedGet visited next with
      | none => q ++ [⟨cost + w, next, path ++ [next]⟩]
      | some c => if c > cost + w then q ++ [⟨cost + w, next, path ++ [next]⟩] else q)
    pq

/-- The `current_id in visited and visited[current_id] <= cost` skip test. -/
def visitedBlocks (visited : List (Nat × Nat)) (node cost : Nat) : Bool :=
  match visitedGet visited node with
  | some c => decide (c ≤ cost)
  | none => false

/-- The main loop of `find_path` (Dijkstra with the `len(path) > max_jumps*2`
prune).  `fuel` is a termination artifact only: the Python loop terminates
because each distinct path is pushed at most once, and every theorem below
either holds for all `fuel` or supplies one large enough.  The expansion
pushes gate neighbours (cost 10) first, then — when enabled — jumpbridge
neighbours (cost 3), against the `visited` dictionary already containing the
current node. -/
def findPathAux (sde : SdeLoader) (useJB : Bool) (endId maxJumps : Nat) :
    Nat → List PQEntry → List (Nat × Nat) → Option (List Nat)
  | 0, _, _ => none
  | Nat.succ fuel, pq, visited =>
    match popMin pq with
    | none => none
    | some (e, pq') =>
      if visitedBlocks visited e.node e.cost then
        findPathAux sde useJB endId maxJumps fuel pq' visited
      else if e.node = endId then some e.path
      else if e.path.length > maxJumps * 2 then
        findPathAux sde useJB endId maxJumps fuel pq'
          (visitedSet visited e.node e.cost)
      else
        findPathAux sde useJB endId maxJumps fuel
          (if useJB then
            pushNeighbors (visitedSet visited e.node e.cost) e.cost e.path 3
              (sde.jumpbridges e.node)
              (pushNeighbors (visitedSet visited e.node e.cost) e.cost e.path 10
                (sde.system_jumps e.node) pq')
          else
            pushNeighbors (visitedSet visited e.node e.cost) e.cost e.path 10
              (sde.system_jumps e.node) pq')
          (visitedSet visited e.node e.cost)

/-- `find_path` after name resolution, at the id level: seeds the queue with
`(0, start_id, [start_id])` and runs the loop. -/
def find_path_ids (sde : SdeLoader) (useJB : Bool) (startId endId maxJumps fuel : Nat) :
    Option (List Nat) :=
  findPathAux sde useJB endId maxJumps fuel [⟨0, startId, [startId]⟩] []

/-- Python's `str.strip()`: drop whitespace from both ends. -/
def pyStrip (s : String) : String :=
  ⟨((s.toList.dropWhile Char.isWhitespace).reverse.dropWhile Char.isWhitespace).reverse⟩

/-- `SecurityValidator.validate_system_name`: non-empty, at most 100
characters, matching `^[A-Za-z0-9\s\-]+$`, then stripped. -/
def validate_system_name (name : String) : Option String :=
  if name.length = 0 ∨ name.length > 100 then none
  else if name.toList.all (fun c => c.isAlphanum || c.isWhitespace || c = '-') then
    some (pyStrip name)
  else none

/-- `find_path` from `eve_sde_loader.py`: validates both names and
`max_jumps ∈ [1, 100]`, resolves names to ids (a falsy id — `None` or `0` —
aborts), returns `[start]` when the ids coincide, and otherwise runs the
weighted search, translating the resulting id path back to names.
`fuel` is the termination artifact of `findPathAux`. -/
def find_path (sde : SdeLoader) (fuel : Nat) (start_system end_system : String)
    (max_jumps : Nat) (use_jumpbridges : Bool) : Option (List String) :=
  match validate_system_name start_system, validate_system_name end_system with
  | some s, some e =>
    -- Python then re-tests the validated values for falsiness: a stripped
    -- name can be the empty string (e.g. all-whitespace input), which is
    -- falsy and aborts
    if s = "" ∨ e = "" then none
    else if max_jumps < 1 ∨ max_jumps > 100 then none
    else
      match sde.system_name_to_id s, sde.system_name_to_id e with
      | some startId, some endId =>
        if startId = 0 ∨ endId = 0 then none
        else if startId = endId then some [s]
        else
          match find_path_ids sde use_jumpbridges startId endId max_jumps fuel with
          | some path => some (path.map sde.system_id_to_name)
          | none => none
      | _, _ => none
  | _, _ => none

/-! ## The hybrid route composer and scorer (`drifter_tracker.py`) -/

/-- The needle starts the haystack, on character lists. -/
def charsStartWith : List Char → List Char → Bool
  | [], _ => true
  | _ :: _, [] => false
  | a :: as, b :: bs => a = b && charsStartWith as bs

/-- The needle occurs as a contiguous run in the haystack. -/
def charsOccur (needle : List Char) : List Char → Bool
  | [] => charsStartWith needle []
  | c :: rest => charsStartWith needle (c :: rest) || charsOccur needle rest

/-- Python's substring test `needle in hay`. -/
def strContains (hay needle : String) : Bool :=
  charsOccur needle.toList hay.toList

/-- `calculate_route_score_single` from `drifter_tracker.py`. -/
def calculate_route_score_single (entry_gates exit_gates : Nat) (wh : Scan) : Int :=
  let total_gates : Int := (entry_gates : Int) + (exit_gates : Int)
  let score : Int := total_gates
  let score := if wh.lifeStatus = "Critical" then score + 60 else score
  let score := if strContains wh.massStatus "< 10%" then score + 50 else score
  let score := if wh.lifeStatus = "Destabilizing" then score + 25 else score
  let score := if strContains wh.massStatus "50% > 10%" then score + 20 else score
  let score := if total_gates > 15 then score + 10 else score
  let score :=
    if total_gates < 10 ∧ wh.lifeStatus = "Fresh" ∧ strContains wh.massStatus "100% > 50%"
    then score - 5 else score
  score

/-- The body of the `for wh_data in [wh_data_1, wh_data_2]` loop of
`calculate_route_score_multihop`: life penalty (if/elif) plus mass
penalty (if/elif) for one hole. -/
def per_hole_penalty (wh : Scan) : Int :=
  (if wh.lifeStatus = "Critical" then 50
   else if wh.lifeStatus = "Destabilizing" then 20 else 0)
  + (if strContains wh.massStatus "< 10%" then 45
     else if strContains wh.massStatus "50% > 10%" then 18 else 0)

/-- `calculate_route_score_multihop` from `drifter_tracker.py`:
`BURN_TIME_PENALTY + NPC_DANGER_PENALTY + COMPLEXITY_PENALTY = 15 + 10 + 5`. -/
def calculate_route_score_multihop (entry_gates exit_gates : Nat)
    (wh1 wh2 : Scan) : Int :=
  let total_gates : Int := (entry_gates : Int) + (exit_gates : Int)
  let score : Int := total_gates + (15 + 10 + 5)
  let score := score + per_hole_penalty wh1 + per_hole_penalty wh2
  if (wh1.lifeStatus = "Fresh" ∧ strContains wh1.massStatus "100% > 50%")
      ∧ (wh2.lifeStatus = "Fresh" ∧ strContains wh2.massStatus "100% > 50%")
  then score - 5 else score

/-- One wormhole hop of a route candidate. -/
structure Hop where
  entry_system : String
  exit_system : String
  wormhole : Scan
  deriving DecidableEq, Repr

/-- A route candidate, the dictionary appended to `routes` in
`find_hybrid_routes`. -/
structure Route where
  origin : String
  destination : String
  entry_path : List String
  hops : List Hop
  exit_path : List String
  entry_gates : Nat
  exit_gates : Nat
  total_gates : Nat
  wormhole_count : Nat
  score : Int
  deriving DecidableEq, Repr

/-- `connections[k]` where the key is known to come from
`connections.keys()`. -/
def connsGet (c : Conns) (k : String) : List (String × Scan) :=
  (connsFind c k).getD []

/-- The single-hop enumeration loop of `find_hybrid_routes`. -/
def single_hop_routes (sde : SdeLoader) (fuel : Nat) (origin destination : String)
    (conns : Conns) (max_gates_per_leg : Nat) : List Route :=
  (conns.map Prod.fst).foldl
    (fun routes entry_system =>
      match find_path sde fuel origin entry_system max_gates_per_leg true with
      | none => routes
      | some entry_path =>
        let entry_gates := entry_path.length - 1
        (connsGet conns entry_system).foldl
          (fun rs ew =>
            match find_path sde fuel ew.1 destination max_gates_per_leg true with
            | none => rs
            | some exit_path =>
              let exit_gates := exit_path.length - 1
              rs ++ [{ origin := origin, destination := destination,
                       entry_path := entry_path,
                       hops := [⟨entry_system, ew.1, ew.2⟩],
                       exit_path := exit_path,
                       entry_gates := entry_gates, exit_gates := exit_gates,
                       total_gates := entry_gates + exit_gates,
                       wormhole_count := 1,
                       score := calculate_route_score_single entry_gates exit_gates ew.2 }])
          routes)
    []

/-- The two-wormhole (multi-hop) enumeration loop of `find_hybrid_routes`. -/
def two_hop_routes (sde : SdeLoader) (fuel : Nat) (origin destination : String)
    (conns : Conns) (max_gates_per_leg : Nat) : List Route :=
  (conns.map Prod.fst).foldl
    (fun routes entry_system =>
      match find_path sde fuel origin entry_system max_gates_per_leg true with
      | none => routes
      | some entry_path =>
        let entry_gates := entry_path.length - 1
        (connsGet conns entry_system).foldl
          (fun rs mw =>
            match connsFind conns mw.1 with
            | none => rs
            | some midList =>
              -- the source also computes `find_path(mid_system, mid_system,
              -- max_jumps=0)` here; `max_jumps = 0` fails validation so the
              -- result is always `None` and it is never read
              midList.foldl
                (fun rs2 xw =>
                  if xw.1 = entry_system then rs2
                  else if mw.2.holeType = xw.2.holeType then rs2
                  else
                    match find_path sde fuel xw.1 destination max_gates_per_leg true with
                    | none => rs2
                    | some exit_path =>
                      let exit_gates := exit_path.length - 1
                      let total_gates := entry_gates + exit_gates
                      let direct_route_1 :=
                        find_path sde fuel mw.1 destination max_gates_per_leg true
                      let direct_route_1_gates :=
                        entry_gates + (match direct_route_1 with
                                       | some p => p.length - 1
                                       | none => 999)
                      if total_gates > direct_route_1_gates + 10 then rs2
                      else
                        rs2 ++ [{ origin := origin, destination := destination,
                                  entry_path := entry_path,
                                  hops := [⟨entry_system, mw.1, mw.2⟩,
                                           ⟨mw.1, xw.1, xw.2⟩],
                                  exit_path := exit_path,
                                  entry_gates := entry_gates,
                                  exit_gates := exit_gates,
                                  total_gates := total_gates,
                                  wormhole_count := 2,
                                  score := calculate_route_score_multihop
                                    entry_gates exit_gates mw.2 xw.2 }])
                rs)
          routes)
    []

/-- Insert a route into a score-sorted list before the first strictly
worse entry. -/
def insertByScore (r : Route) : List Route → List Route
  | [] => [r]
  | x :: xs => if r.score ≤ x.score then r :: x :: xs else x :: insertByScore r xs

/-- `routes.sort(key=lambda r: r['score'])`: a stable insertion sort by
ascending score. -/
def sortByScore : List Route → List Route
  | [] => []
  | r :: rest => insertByScore r (sortByScore rest)

/-- `find_hybrid_routes` from `drifter_tracker.py`: single-hop candidates,
then two-hop candidates (multi-hop is always enabled), sorted ascending by
score. -/
def find_hybrid_routes (sde : SdeLoader) (fuel : Nat) (origin destination : String)
    (conns : Conns) (max_gates_per_leg : Nat := 15) : List Route :=
  sortByScore (single_hop_routes sde fuel origin destination conns max_gates_per_leg
    ++ two_hop_routes sde fuel origin destination conns max_gates_per_leg)

/-! ## Reference formulas taken from the specification text

These two score formulas are written from the spec's words (§4.4), to be
compared with the implementation's `calculate_route_score_single` and
`calculate_route_score_multihop`. -/

/-- Single-hop score as the spec states it:
`totalGates + criticalPenalty + massPenalty + lengthPenalty − bonus`. -/
def spec_score_single (total_gates : Int) (lifeStatus massStatus : String) : Int :=
  total_gates
  + (if lifeStatus = "Critical" then 60
     else if lifeStatus = "Destabilizing" then 25 else 0)
  + (if massStatus = "< 10%" then 50
     else if massStatus = "50% > 10%" then 20 else 0)
  + (if total_gates > 15 then 10 else 0)
  - (if total_gates < 10 ∧ lifeStatus = "Fresh" ∧ massStatus = "100% > 50%"
     then 5 else 0)

/-- Per-hole penalty of the spec's two-hop formula. -/
def spec_per_hole_penalty (lifeStatus massStatus : String) : Int :=
  (if lifeStatus = "Critical" then 50
   else if lifeStatus = "Destabilizing" then 20 else 0)
  + (if massStatus = "< 10%" then 45
     else if massStatus = "50% > 10%" then 18 else 0)

/-- Two-hop score as the spec states it:
`totalGates + 30 + Σ perHolePenalty − bonus`. -/
def spec_score_two_hop (total_gates : Int) (wh1 wh2 : Scan) : Int :=
  total_gates + 30
  + spec_per_hole_penalty wh1.lifeStatus wh1.massStatus
  + spec_per_hole_penalty wh2.lifeStatus wh2.massStatus
  - (if (wh1.lifeStatus = "Fresh" ∧ wh1.massStatus = "100% > 50%")
        ∧ (wh2.lifeStatus = "Fresh" ∧ wh2.massStatus = "100% > 50%")
     then 5 else 0)

/-- The four `massStatus` values of the data model (§3). -/
def canonicalMass (m : String) : Prop :=
  m = "100% > 50%" ∨ m = "50% > 10%" ∨ m = "< 10%" ∨ m = "N/A"

/-! ## Concrete fixtures -/

/-- A fresh, full-mass Barbican scan in the given system, scanned at time 0. -/
def barb (sys : String) : Scan :=
  ⟨sys, "Barbican", "Fresh", "100% > 50%", some 0⟩

/-- Three active Barbican scans in the three distinct systems X, Y, Z. -/
def threeBarbicans : List Scan := [barb "X", barb "Y", barb "Z"]

/-- Two active Barbican scans both recorded in system X: two logically
distinct store entries in the same system. -/
def twoInSameSystem : List Scan := [barb "X", barb "X"]

/-- Counterexample universe for the pathfinder: systems S=1, A=2, N=3, D=4;
gate edges S→N and N→D; jumpbridge edges S→A and A→N. -/
def cgSde : SdeLoader where
  system_name_to_id := fun n =>
    if n = "S" then some 1 else if n = "A" then some 2
    else if n = "N" then some 3 else if n = "D" then some 4 else none
  system_id_to_name := fun i =>
    if i = 1 then "S" else if i = 2 then "A"
    else if i = 3 then "N" else if i = 4 then "D" else ""
  system_jumps := fun i => if i = 1 then [3] else if i = 3 then [4] else []
  jumpbridges := fun i => if i = 1 then [2] else if i = 2 then [3] else []

/-- Directed line universe with `n` gate edges `1 → 2 → … → n+1`;
system 1 is named S and system `n+1` is named E. -/
def lineSde (n : Nat) : SdeLoader where
  system_name_to_id := fun s =>
    if s = "S" then some 1 else if s = "E" then some (n + 1) else none
  system_id_to_name := fun i =>
    if i = 1 then "S" else if i = n + 1 then "E" else ""
  system_jumps := fun i => if 1 ≤ i ∧ i ≤ n then [i + 1] else []
  jumpbridges := fun _ => []

/-- The id path `[1, 2, …, k+1]` along the line universe. -/
def linePath (k : Nat) : List Nat := (List.range (k + 1)).map (· + 1)

/-- The `visited` dictionary after the first `k` pops on the line universe. -/
def lineVisited (k : Nat) : List (Nat × Nat) :=
  (List.range k).map (fun i => (i + 1, 10 * i))

/-- Universe for the composer examples: O=1, X=2, D=3; gates O↔X and X↔D. -/
def oxdSde : SdeLoader where
  system_name_to_id := fun n =>
    if n = "O" then some 1 else if n = "X" then some 2
    else if n = "D" then some 3 else none
  system_id_to_name := fun i =>
    if i = 1 then "O" else if i = 2 then "X" else if i = 3 then "D" else ""
  system_jumps := fun i =>
    if i = 1 then [2] else if i = 2 then [1, 3] else if i = 3 then [2] else []
  jumpbridges := fun _ => []

/-- Universe for the two-hop composer example: O=1, E=2, M=3, X=4, D=5;
gates O→E and X→D only. -/
def twoHopSde : SdeLoader where
  system_name_to_id := fun n =>
    if n = "O" then some 1 else if n = "E" then some 2
    else if n = "M" then some 3 else if n = "X" then some 4
    else if n = "D" then some 5 else none
  system_id_to_name := fun i =>
    if i = 1 then "O" else if i = 2 then "E" else if i = 3 then "M"
    else if i = 4 then "X" else if i = 5 then "D" else ""
  system_jumps := fun i => if i = 1 then [2] else if i = 4 then [5] else []
  jumpbridges := fun _ => []

/-- A fresh Conflux scan in system X, scanned at time 0. -/
def confX : Scan := ⟨"X", "Conflux", "Fresh", "100% > 50%", some 0⟩

/-- A holed scan whose stored timestamp failed to parse. -/
def noTsScan : Scan := ⟨"W", "Barbican", "Fresh", "100% > 50%", none⟩

/-- A connection graph with one Barbican edge E → M and one Conflux edge
M → X, supporting a two-wormhole route from O to D in `twoHopSde`. -/
def twoHopConns : Conns :=
  [("E", [("M", barb "M")]), ("M", [("X", confX)])]

/-- The single two-wormhole route that `find_hybrid_routes` produces on the
two-hop fixture. -/
def twoHopRoute : Route :=
  ⟨"O", "D", ["O", "E"], [⟨"E", "M", barb "M"⟩, ⟨"M", "X", confX⟩],
   ["X", "D"], 1, 1, 2, 2, 27⟩

/-! ## Chain validity in the static universe -/

/-- An edge of the union graph `find_path` explores: a gate edge always, a
jumpbridge edge when `use_jumpbridges` is set. -/
def isEdgeB (sde : SdeLoader) (useJB : Bool) (a b : Nat) : Bool :=
  (sde.system_jumps a).contains b || (useJB && (sde.jumpbridges a).contains b)

/-- The list of ids is a chain of union-graph edges. -/
def validChain (sde : SdeLoader) (useJB : Bool) : List Nat → Bool
  | a :: b :: rest => isEdgeB sde useJB a b && validChain sde useJB (b :: rest)
  | _ => true

/-- The invariant of every priority-queue entry during the search: its path
is a nonempty valid chain from the start id to its node, of at most
`2 × maxJumps` edges. -/
def entryOk (sde : SdeLoader) (useJB : Bool) (startId maxJumps : Nat)
    (e : PQEntry) : Prop :=
  e.path ≠ [] ∧ e.path.head? = some startId ∧ e.path.getLast? = some e.node
  ∧ validChain sde useJB e.path = true ∧ e.path.length ≤ maxJumps * 2 + 1

/-- The provenance of an edge: it comes from an enumerated pair of distinct
active scans with equal hole type. -/
def goodEdge (active : List Scan) (s t : String) (o : Scan) : Prop :=
  ∃ i j a, (i, a) ∈ active.enum ∧ (j, o) ∈ active.enum ∧ i ≠ j ∧
    a.system = s ∧ a.holeType = o.holeType ∧ o.system = t

/-- Shape of every two-hop candidate: exactly the two recorded hops, with
different hole types and an exit different from the original entry. -/
def twoHopOk (r : Route) : Prop :=
  r.wormhole_count = 2 ∧ ∃ hop1 hop2, r.hops = [hop1, hop2]
    ∧ hop1.wormhole.holeType ≠ hop2.wormhole.holeType
    ∧ hop2.exit_system ≠ hop1.entry_system

/-! ## General helper lemmas -/

theorem foldl_induct {α β : Type} {l : List α} {f : β → α → β} (P : β → Prop)
    (h : ∀ b x, x ∈ l → P b → P (f b x)) (init : β) (h0 : P init) :
    P (l.foldl f init) := by
  induction l generalizing init with
  | nil => exact h0
  | cons a as ih =>
    exact ih (fun b x hx hb => h b x (List.mem_cons_of_mem _ hx) hb) _
      (h init a (List.mem_cons_self _ _) h0)

theorem mem_active_wormholes {scans : List Scan} {now : Int} {s : Scan} :
    s ∈ active_wormholes scans now ↔
      s ∈ scans ∧ s.holeType ≠ "None" ∧ scanExpired now s = false := by
  unfold active_wormholes
  rw [List.mem_filter]
  constructor
  · rintro ⟨hmem, hp⟩
    simp only [Bool.and_eq_true, decide_not, Bool.not_eq_eq_eq_not,
      Bool.not_true, decide_eq_false_iff_not, Bool.not_eq_true'] at hp
    exact ⟨hmem, hp.1, hp.2⟩
  · rintro ⟨hmem, h1, h2⟩
    refine ⟨hmem, ?_⟩
    simp [h1, h2]

theorem scanExpired_some {now t : Int} {s : Scan} (h : s.scannedAt = some t) :
    scanExpired now s = decide (now - t > lifetimeSeconds s.lifeStatus) := by
  unfold scanExpired
  rw [h]

/-! ## Claim theorems: lifetimes and spawn times -/

/-- **C10**: a scan whose `lifeStatus` is outside
{Fresh, Destabilizing, Critical} receives the default 24-hour lifetime
budget, its spawn-time backdating leaves the scan time unchanged, and the
expiry test treats it exactly like a Fresh scan. -/
theorem C10_unknown_status_defaults_to_fresh (ls : String)
    (h1 : ls ≠ "Fresh") (h2 : ls ≠ "Destabilizing") (h3 : ls ≠ "Critical") :
    lifetimeSeconds ls = lifetimeSeconds "Fresh"
    ∧ (∀ t : Int, calculate_spawn_time ls t = calculate_spawn_time "Fresh" t)
    ∧ (∀ (s : Scan) (now : Int), s.lifeStatus = ls →
        scanExpired now s = scanExpired now { s with lifeStatus := "Fresh" }) := by
  refine ⟨?_, ?_, ?_⟩
  · simp [lifetimeSeconds, h1, h2, h3]
  · intro t
    simp [calculate_spawn_time, h1, h2, h3]
  · intro s now hls
    unfold scanExpired
    cases s.scannedAt with
    | none => rfl
    | some t => simp [lifetimeSeconds, hls, h1, h2, h3]

/-- Witness for C10 at the concrete status `N/A`. -/
theorem C10_unknown_status_defaults_to_fresh_witness :
    lifetimeSeconds "N/A" = lifetimeSeconds "Fresh"
    ∧ (∀ t : Int, calculate_spawn_time "N/A" t = calculate_spawn_time "Fresh" t)
    ∧ (∀ (s : Scan) (now : Int), s.lifeStatus = "N/A" →
        scanExpired now s = scanExpired now { s with lifeStatus := "Fresh" }) :=
  C10_unknown_status_defaults_to_fresh "N/A"
    (by decide) (by decide) (by decide)

/-- **C3**: a Critical scan scanned at time `T` stores
`spawnTimestamp = T − 24h`, and under the expiry rule it can only be active
at times `now ≤ T − 24h + 15min`; in particular it is never usable more than
15 minutes past the scan moment. -/
theorem C3_critical_spawn_backdating (s : Scan) (T now : Int)
    (hls : s.lifeStatus = "Critical")
    (hts : s.scannedAt = some (calculate_spawn_time "Critical" T)) :
    calculate_spawn_time "Critical" T = T - 24 * 3600
    ∧ (scanExpired now s = false → now ≤ T - 24 * 3600 + 15 * 60)
    ∧ (scanExpired now s = false → now ≤ T + 15 * 60) := by
  have hspawn : calculate_spawn_time "Critical" T = T - 24 * 3600 := by
    simp [calculate_spawn_time]
  have hexp : scanExpired now s = false → now ≤ T - 24 * 3600 + 15 * 60 := by
    intro h
    rw [scanExpired_some hts, hspawn, hls,
      show lifetimeSeconds "Critical" = 900 from by decide] at h
    norm_num at h
    omega
  exact ⟨hspawn, hexp, fun h => le_trans (hexp h) (by omega)⟩

/-- Witness for C3: a Critical scan recorded at `T = 100000`, examined at
`now = 14500` (just inside the surviving window). -/
theorem C3_critical_spawn_backdating_witness :
    calculate_spawn_time "Critical" 100000 = 100000 - 24 * 3600
    ∧ (scanExpired 14500
        (⟨"X", "Barbican", "Critical", "100% > 50%",
          some (calculate_spawn_time "Critical" 100000)⟩ : Scan) = false →
        (14500 : Int) ≤ 100000 - 24 * 3600 + 15 * 60)
    ∧ (scanExpired 14500
        (⟨"X", "Barbican", "Critical", "100% > 50%",
          some (calculate_spawn_time "Critical" 100000)⟩ : Scan) = false →
        (14500 : Int) ≤ 100000 + 15 * 60) :=
  C3_critical_spawn_backdating
    ⟨"X", "Barbican", "Critical", "100% > 50%",
      some (calculate_spawn_time "Critical" 100000)⟩
    100000 14500 rfl rfl

/-- **C4**: the connection-graph builder treats a holed scan as active iff
`now − spawnTimestamp ≤ lifetime(lifeStatus)`, with lifetimes 24h / 4h /
0.25h; a Fresh scan spawned at `t0` is still active at `t0 + 24h` and
inactive at `t0 + 24h + 1s`. -/
theorem C4_active_iff_within_lifetime (s : Scan) (now t : Int)
    (hht : s.holeType ≠ "None") (hts : s.scannedAt = some t) :
    ((s ∈ active_wormholes [s] now) ↔ now - t ≤ lifetimeSeconds s.lifeStatus)
    ∧ lifetimeSeconds "Fresh" = 24 * 3600
    ∧ lifetimeSeconds "Destabilizing" = 4 * 3600
    ∧ lifetimeSeconds "Critical" = 15 * 60
    ∧ (∀ t0 : Int,
        ({ s with lifeStatus := "Fresh", scannedAt := some t0 } : Scan)
          ∈ active_wormholes
              [{ s with lifeStatus := "Fresh", scannedAt := some t0 }]
              (t0 + 24 * 3600)) := by
  refine ⟨?_, by simp [lifetimeSeconds], by simp [lifetimeSeconds],
    by simp [lifetimeSeconds], ?_⟩
  · rw [mem_active_wormholes]
    constructor
    · rintro ⟨-, -, hexp⟩
      unfold scanExpired at hexp
      rw [hts] at hexp
      simp only [decide_eq_false_iff_not, not_lt] at hexp
      exact hexp
    · intro h
      refine ⟨List.mem_singleton_self s, hht, ?_⟩
      unfold scanExpired
      rw [hts]
      simp only [decide_eq_false_iff_not, not_lt]
      exact h
  · intro t0
    rw [mem_active_wormholes]
    refine ⟨List.mem_singleton_self _, hht, ?_⟩
    unfold scanExpired
    simp [lifetimeSeconds]

/-- Witness for C4 at a concrete Fresh Barbican scan, including the
companion fact that the same scan is inactive one second after its
24-hour budget. -/
theorem C4_active_iff_within_lifetime_witness :
    ((barb "X" ∈ active_wormholes [barb "X"] 0) ↔
      (0 : Int) - 0 ≤ lifetimeSeconds (barb "X").lifeStatus)
    ∧ (barb "X" ∈ active_wormholes [barb "X"] (24 * 3600))
    ∧ (barb "X" ∉ active_wormholes [barb "X"] (24 * 3600 + 1)) := by
  refine ⟨(C4_active_iff_within_lifetime (barb "X") 0 0 (by decide) rfl).1,
    ?_, ?_⟩
  · have h := ((C4_active_iff_within_lifetime (barb "X") (24 * 3600) 0
      (by decide) rfl).1).mpr (by simp [lifetimeSeconds, barb])
    exact h
  · intro hmem
    have h := ((C4_active_iff_within_lifetime (barb "X") (24 * 3600 + 1) 0
      (by decide) rfl).1).mp hmem
    simp [lifetimeSeconds, barb] at h

/-! ## Claim theorems: route scores -/

/-- On the four data-model mass statuses, Python's substring tests of the
scorer coincide with equality tests. -/
theorem strContains_canonical (m : String) (h : canonicalMass m) :
    (strContains m "< 10%" = decide (m = "< 10%"))
    ∧ (strContains m "50% > 10%" = decide (m = "50% > 10%"))
    ∧ (strContains m "100% > 50%" = decide (m = "100% > 50%")) := by
  rcases h with h | h | h | h <;> subst h <;> refine ⟨?_, ?_, ?_⟩ <;> decide

theorem score_single_eq_spec (eg xg : Nat) (wh : Scan)
    (hm : canonicalMass wh.massStatus) :
    calculate_route_score_single eg xg wh
      = spec_score_single ((eg : Int) + (xg : Int)) wh.lifeStatus wh.massStatus := by
  obtain ⟨h1, h2, h3⟩ := strContains_canonical wh.massStatus hm
  unfold calculate_route_score_single spec_score_single
  rw [h1, h2, h3]
  simp only [decide_eq_true_eq]
  split_ifs <;> first | omega | simp_all

theorem score_multihop_eq_spec (eg xg : Nat) (wh1 wh2 : Scan)
    (hm1 : canonicalMass wh1.massStatus) (hm2 : canonicalMass wh2.massStatus) :
    calculate_route_score_multihop eg xg wh1 wh2
      = spec_score_two_hop ((eg : Int) + (xg : Int)) wh1 wh2 := by
  obtain ⟨h1, h2, h3⟩ := strContains_canonical wh1.massStatus hm1
  obtain ⟨g1, g2, g3⟩ := strContains_canonical wh2.massStatus hm2
  unfold calculate_route_score_multihop spec_score_two_hop per_hole_penalty
    spec_per_hole_penalty
  rw [h1, h2, h3, g1, g2, g3]
  simp only [decide_eq_true_eq]
  split_ifs <;> omega

/-- **C7**: for data-model mass statuses, the implemented single-hop and
two-hop scores equal the spec formulas (single: totalGates + 60/25/0 life
penalty + 50/20/0 mass penalty + 10 length penalty − 5 perfect-route bonus;
two-hop: totalGates + 30 overhead + per-hole penalties − 5 double-fresh
bonus). -/
theorem C7_scores_match_spec_formula (eg xg : Nat) (wh1 wh2 : Scan)
    (hm1 : canonicalMass wh1.massStatus) (hm2 : canonicalMass wh2.massStatus) :
    calculate_route_score_single eg xg wh1
      = spec_score_single ((eg : Int) + (xg : Int)) wh1.lifeStatus wh1.massStatus
    ∧ calculate_route_score_multihop eg xg wh1 wh2
      = spec_score_two_hop ((eg : Int) + (xg : Int)) wh1 wh2 :=
  ⟨score_single_eq_spec eg xg wh1 hm1,
   score_multihop_eq_spec eg xg wh1 wh2 hm1 hm2⟩

/-- Witness for C7: a fresh full-mass Barbican and a destabilizing
half-mass Conflux, 2 + 3 gates. -/
theorem C7_scores_match_spec_formula_witness :
    calculate_route_score_single 2 3 (barb "X")
      = spec_score_single ((2 : Int) + (3 : Int))
          (barb "X").lifeStatus (barb "X").massStatus
    ∧ calculate_route_score_multihop 2 3 (barb "X")
        ⟨"Y", "Conflux", "Destabilizing", "50% > 10%", some 0⟩
      = spec_score_two_hop ((2 : Int) + (3 : Int)) (barb "X")
          ⟨"Y", "Conflux", "Destabilizing", "50% > 10%", some 0⟩ :=
  C7_scores_match_spec_formula 2 3 (barb "X")
    ⟨"Y", "Conflux", "Destabilizing", "50% > 10%", some 0⟩
    (Or.inl rfl) (Or.inr (Or.inl rfl))

/-! ## Connection-graph dictionary lemmas -/

theorem connsFind_cons (k' s : String) (l0 : List (String × Scan))
    (tl : Conns) :
    connsFind ((k', l0) :: tl) s
      = if k' = s then some l0 else connsFind tl s := by
  simp only [connsFind, List.find?]
  by_cases h : k' = s <;> simp [h]

theorem connsAppend_cons (k' k : String) (l0 : List (String × Scan))
    (tl : Conns) (e : String × Scan) :
    connsAppend ((k', l0) :: tl) k e
      = if k' = k then (k', l0 ++ [e]) :: tl
        else (k', l0) :: connsAppend tl k e := by
  by_cases h : k' = k <;> simp [connsAppend, h]

theorem connsFind_connsAppend_self (c : Conns) (k : String) (e : String × Scan) :
    connsFind (connsAppend c k e) k = some ((connsFind c k).getD [] ++ [e]) := by
  induction c with
  | nil => simp [connsAppend, connsFind]
  | cons hd tl ih =>
    obtain ⟨k', l⟩ := hd
    rw [connsAppend_cons]
    by_cases hk : k' = k
    · subst hk
      rw [if_pos rfl, connsFind_cons, if_pos rfl, connsFind_cons, if_pos rfl]
      rfl
    · rw [if_neg hk, connsFind_cons, if_neg hk, connsFind_cons, if_neg hk, ih]

theorem connsFind_connsAppend_other (c : Conns) (k s : String) (e : String × Scan)
    (h : s ≠ k) :
    connsFind (connsAppend c k e) s = connsFind c s := by
  induction c with
  | nil =>
    simp [connsAppend, connsFind, List.find?, Ne.symm h]
  | cons hd tl ih =>
    obtain ⟨k', l⟩ := hd
    rw [connsAppend_cons]
    by_cases hk : k' = k
    · subst hk
      rw [if_pos rfl, connsFind_cons, connsFind_cons,
        if_neg (fun hh => h hh.symm), if_neg (fun hh => h hh.symm)]
    · rw [if_neg hk, connsFind_cons, connsFind_cons, ih]

theorem connsFind_append_single_of_some {c : Conns} {s : String}
    {l : List (String × Scan)} (k : String) (v : List (String × Scan))
    (h : connsFind c s = some l) :
    connsFind (c ++ [(k, v)]) s = some l := by
  induction c with
  | nil => simp [connsFind] at h
  | cons hd tl ih =>
    obtain ⟨k', l0⟩ := hd
    rw [List.cons_append, connsFind_cons]
    rw [connsFind_cons] at h
    by_cases hs : k' = s
    · rwa [if_pos hs] at h ⊢
    · rw [if_neg hs] at h ⊢
      exact ih h

theorem connsFind_append_single_of_none {c : Conns} {s : String}
    (k : String) (v : List (String × Scan))
    (h : connsFind c s = none) :
    connsFind (c ++ [(k, v)]) s = if k = s then some v else none := by
  induction c with
  | nil =>
    rw [List.nil_append, connsFind_cons]
    rfl
  | cons hd tl ih =>
    obtain ⟨k', l0⟩ := hd
    rw [List.cons_append, connsFind_cons]
    rw [connsFind_cons] at h
    by_cases hs : k' = s
    · rw [if_pos hs] at h
      cases h
    · rw [if_neg hs] at h ⊢
      exact ih h

theorem edgeIn_connsEnsure {c : Conns} {k s t : String} {o : Scan} :
    edgeIn (connsEnsure c k) s t o ↔ edgeIn c s t o := by
  unfold connsEnsure
  cases hf : connsFind c k with
  | some l => exact Iff.rfl
  | none =>
    constructor
    · rintro ⟨l, hfind, hmem⟩
      cases hcs : connsFind c s with
      | some l0 =>
        rw [connsFind_append_single_of_some k [] hcs] at hfind
        injection hfind with hfind
        subst hfind
        exact ⟨l0, hcs, hmem⟩
      | none =>
        rw [connsFind_append_single_of_none k [] hcs] at hfind
        split at hfind
        · cases hfind
          simp at hmem
        · cases hfind
    · rintro ⟨l, hfind, hmem⟩
      exact ⟨l, connsFind_append_single_of_some k [] hfind, hmem⟩

theorem edgeIn_mono_connsAppend {c : Conns} {s t : String} {o : Scan}
    (k : String) (e : String × Scan) (h : edgeIn c s t o) :
    edgeIn (connsAppend c k e) s t o := by
  obtain ⟨l, hf, hm⟩ := h
  by_cases hs : s = k
  · subst hs
    refine ⟨(connsFind c s).getD [] ++ [e], connsFind_connsAppend_self c s e, ?_⟩
    rw [hf]
    exact List.mem_append_left _ hm
  · exact ⟨l, by rw [connsFind_connsAppend_other c k s e hs]; exact hf, hm⟩

theorem edgeIn_connsAppend_self (c : Conns) (k t : String) (o : Scan) :
    edgeIn (connsAppend c k (t, o)) k t o :=
  ⟨_, connsFind_connsAppend_self c k (t, o),
    List.mem_append_right _ (List.mem_singleton_self _)⟩

theorem edgeIn_connsAppend_inv {c : Conns} {k s t : String} {o : Scan}
    {e : String × Scan} (h : edgeIn (connsAppend c k e) s t o) :
    edgeIn c s t o ∨ (s = k ∧ (t, o) = e) := by
  obtain ⟨l, hf, hm⟩ := h
  by_cases hs : s = k
  · subst hs
    rw [connsFind_connsAppend_self] at hf
    cases hf
    rcases List.mem_append.mp hm with hm1 | hm2
    · cases hcs : connsFind c s with
      | some l0 =>
        rw [hcs] at hm1
        exact Or.inl ⟨l0, hcs, hm1⟩
      | none =>
        rw [hcs] at hm1
        simp at hm1
    · simp at hm2
      exact Or.inr ⟨rfl, hm2⟩
  · exact Or.inl ⟨l, by rw [← connsFind_connsAppend_other c k s e hs]; exact hf, hm⟩

/-! ## Builder characterisation lemmas -/

theorem edgeIn_connect_step {cs : Conns} {s t : String} {o : Scan}
    (isc j : Nat × Scan) (h : edgeIn cs s t o) :
    edgeIn (connect_step isc cs j) s t o := by
  unfold connect_step
  split_ifs with h1 h2
  · exact h
  · exact edgeIn_mono_connsAppend _ _ h
  · exact h

theorem connect_step_makes_edge (isc j : Nat × Scan) (cs : Conns)
    (hne : isc.1 ≠ j.1) (hty : isc.2.holeType = j.2.holeType) :
    edgeIn (connect_step isc cs j) isc.2.system j.2.system j.2 := by
  unfold connect_step
  rw [if_neg hne, if_pos hty]
  exact edgeIn_connsAppend_self cs _ _ _

theorem edgeIn_connect_outer_mono {c : Conns} {s t : String} {o : Scan}
    (active : List Scan) (isc : Nat × Scan) (h : edgeIn c s t o) :
    edgeIn (connect_outer active c isc) s t o := by
  unfold connect_outer
  exact foldl_induct (fun z => edgeIn z s t o)
    (fun cs x _ hx => edgeIn_connect_step isc x hx) _
    (edgeIn_connsEnsure.mpr h)

theorem edgeIn_connect_outer_of_pair {c : Conns} {active : List Scan}
    {i j : Nat} {a b : Scan}
    (hj : (j, b) ∈ active.enum) (hne : i ≠ j) (hty : a.holeType = b.holeType) :
    edgeIn (connect_outer active c (i, a)) a.system b.system b := by
  unfold connect_outer
  obtain ⟨m1, m2, hsplit⟩ := List.append_of_mem hj
  rw [hsplit, List.foldl_append, List.foldl_cons]
  exact foldl_induct (fun z => edgeIn z a.system b.system b)
    (fun cs x _ hx => edgeIn_connect_step (i, a) x hx) _
    (connect_step_makes_edge (i, a) (j, b) _ hne hty)

/-- Existence half of the builder characterisation: every ordered pair of
distinct active scans with equal hole type yields its edge. -/
theorem build_edge_exists {scans : List Scan} {now : Int} {i j : Nat} {a b : Scan}
    (hi : (i, a) ∈ (active_wormholes scans now).enum)
    (hj : (j, b) ∈ (active_wormholes scans now).enum)
    (hne : i ≠ j) (hty : a.holeType = b.holeType) :
    edgeIn (build_connection_graph scans now) a.system b.system b := by
  unfold build_connection_graph
  obtain ⟨l1, l2, hsplit⟩ := List.append_of_mem hi
  rw [hsplit, List.foldl_append, List.foldl_cons]
  exact foldl_induct (fun z => edgeIn z a.system b.system b)
    (fun c x _ hx => edgeIn_connect_outer_mono _ x hx) _
    (edgeIn_connect_outer_of_pair hj hne hty)

theorem edgeIn_connect_step_inv {cs : Conns} {s t : String} {o : Scan}
    {isc j : Nat × Scan} (h : edgeIn (connect_step isc cs j) s t o) :
    edgeIn cs s t o ∨
      (isc.1 ≠ j.1 ∧ isc.2.holeType = j.2.holeType ∧ s = isc.2.system
        ∧ t = j.2.system ∧ o = j.2) := by
  unfold connect_step at h
  split_ifs at h with h1 h2
  · exact Or.inl h
  · rcases edgeIn_connsAppend_inv h with he | ⟨hs, hto⟩
    · exact Or.inl he
    · injection hto with ht ho
      exact Or.inr ⟨h1, h2, hs, ht, ho⟩
  · exact Or.inl h

theorem edgeIn_connect_outer_inv {c : Conns} {active : List Scan}
    {isc : Nat × Scan} {s t : String} {o : Scan}
    (hmem : isc ∈ active.enum)
    (h : edgeIn (connect_outer active c isc) s t o) :
    edgeIn c s t o ∨ goodEdge active s t o := by
  unfold connect_outer at h
  refine foldl_induct
    (fun cs => edgeIn cs s t o → edgeIn c s t o ∨ goodEdge active s t o)
    (fun cs x hx ih hedge => ?_) _
    (fun hedge => Or.inl (edgeIn_connsEnsure.mp hedge)) h
  rcases edgeIn_connect_step_inv hedge with he | ⟨hne, hty, hs, ht, ho⟩
  · exact ih he
  · refine Or.inr ⟨isc.1, x.1, isc.2, ?_, ?_, hne, hs.symm, ?_, ?_⟩
    · simpa using hmem
    · subst ho
      simpa using hx
    · subst ho
      exact hty
    · subst ho
      exact ht.symm

/-- Soundness half of the builder characterisation: every stored edge comes
from an ordered pair of distinct active scans with equal hole type. -/
theorem build_edge_sound {scans : List Scan} {now : Int} {s t : String} {o : Scan}
    (h : edgeIn (build_connection_graph scans now) s t o) :
    goodEdge (active_wormholes scans now) s t o := by
  unfold build_connection_graph at h
  refine foldl_induct
    (fun c => edgeIn c s t o → goodEdge (active_wormholes scans now) s t o)
    (fun c x hx ih hedge => ?_) _
    (fun hedge => ?_) h
  · rcases edgeIn_connect_outer_inv hx hedge with he | hg
    · exact ih he
    · exact hg
  · obtain ⟨l, hf, -⟩ := hedge
    simp [connsFind] at hf

/-! ## Claim theorems: the connection graph -/

theorem snd_mem_of_mem_enum {α : Type} {l : List α} {p : Nat × α}
    (h : p ∈ l.enum) : p.2 ∈ l := by
  rw [List.mem_enum_iff_getElem?] at h
  exact List.getElem?_mem h

/-- **C2**: the connection graph holds an edge in both adjacency lists for
every ordered pair of distinct surviving same-type scans, every stored edge
arises from such a pair (no self-pairs, no cross-type edges), and three
active Barbicans in X, Y, Z yield exactly 6 directed edges. -/
theorem C2_same_type_clique (scans : List Scan) (now : Int) :
    (∀ i j a b, (i, a) ∈ (active_wormholes scans now).enum →
        (j, b) ∈ (active_wormholes scans now).enum → i ≠ j →
        a.holeType = b.holeType →
        edgeIn (build_connection_graph scans now) a.system b.system b
        ∧ edgeIn (build_connection_graph scans now) b.system a.system a)
    ∧ (∀ s t o, edgeIn (build_connection_graph scans now) s t o →
        ∃ i j a, (i, a) ∈ (active_wormholes scans now).enum
          ∧ (j, o) ∈ (active_wormholes scans now).enum ∧ i ≠ j
          ∧ a.system = s ∧ a.holeType = o.holeType ∧ o.system = t)
    ∧ totalEdges (build_connection_graph threeBarbicans 0) = 6 := by
  refine ⟨?_, ?_, by decide⟩
  · intro i j a b hi hj hne hty
    exact ⟨build_edge_exists hi hj hne hty,
           build_edge_exists hj hi (Ne.symm hne) hty.symm⟩
  · intro s t o h
    have hg := build_edge_sound h
    unfold goodEdge at hg
    exact hg

/-- Witness for C2: the X↔Y Barbican pair of the three-scan fixture. -/
theorem C2_same_type_clique_witness :
    edgeIn (build_connection_graph threeBarbicans 0)
      (barb "X").system (barb "Y").system (barb "Y")
    ∧ edgeIn (build_connection_graph threeBarbicans 0)
      (barb "Y").system (barb "X").system (barb "X") :=
  (C2_same_type_clique threeBarbicans 0).1 0 1 (barb "X") (barb "Y")
    (by decide) (by decide) (by decide) rfl

/-- **C8**: scans with `holeType = 'None'` contribute no edges (every edge's
source and destination scans are holed), and a scan whose timestamp fails to
parse is conservatively kept among the active wormholes. -/
theorem C8_none_filtered_parse_failure_kept (scans : List Scan) (now : Int) :
    (∀ s t o, edgeIn (build_connection_graph scans now) s t o →
        o.holeType ≠ "None"
        ∧ ∃ a ∈ active_wormholes scans now, a.system = s ∧ a.holeType ≠ "None")
    ∧ (∀ s ∈ scans, s.holeType ≠ "None" → s.scannedAt = none →
        s ∈ active_wormholes scans now) := by
  constructor
  · intro s t o h
    obtain ⟨i, j, a, hi, hj, hne, hs, hty, hts⟩ := build_edge_sound h
    have hoact : o ∈ active_wormholes scans now := snd_mem_of_mem_enum hj
    have haact : a ∈ active_wormholes scans now := snd_mem_of_mem_enum hi
    exact ⟨(mem_active_wormholes.mp hoact).2.1, a, haact, hs,
      (mem_active_wormholes.mp haact).2.1⟩
  · intro s hmem hht hts
    rw [mem_active_wormholes]
    refine ⟨hmem, hht, ?_⟩
    unfold scanExpired
    rw [hts]

/-- Witness for C8: a stored edge of the three-Barbican graph, and an
unparseable-timestamp scan that stays active. -/
theorem C8_none_filtered_parse_failure_kept_witness :
    ((barb "Y").holeType ≠ "None"
      ∧ ∃ a ∈ active_wormholes threeBarbicans 0,
          a.system = (barb "X").system ∧ a.holeType ≠ "None")
    ∧ noTsScan ∈ active_wormholes [noTsScan] 0 :=
  ⟨(C8_none_filtered_parse_failure_kept threeBarbicans 0).1
      (barb "X").system (barb "Y").system (barb "Y") (by decide),
   (C8_none_filtered_parse_failure_kept [noTsScan] 0).2 noTsScan
      (by decide) (by decide) rfl⟩

/-- **C9**: two distinct same-type scans recorded in the same system X
produce a system-level self-loop X → X, and the composer then emits a
single-hop candidate whose wormhole entry and exit system coincide. -/
theorem C9_system_self_loop_possible :
    edgeIn (build_connection_graph twoInSameSystem 0) "X" "X" (barb "X")
    ∧ ((find_hybrid_routes oxdSde 100 "O" "D"
          (build_connection_graph twoInSameSystem 0) 15).any
        (fun r => r.wormhole_count == 1
          && r.hops.any (fun h => h.entry_system == h.exit_system))) = true :=
  ⟨by decide, by decide⟩

/-! ## Claim theorems: the hybrid composer -/

theorem mem_insertByScore {r x : Route} {l : List Route} :
    x ∈ insertByScore r l ↔ x = r ∨ x ∈ l := by
  induction l with
  | nil => simp [insertByScore]
  | cons a as ih =>
    unfold insertByScore
    split_ifs
    · simp
    · rw [List.mem_cons, ih, List.mem_cons]
      tauto

theorem mem_sortByScore {x : Route} {l : List Route} :
    x ∈ sortByScore l ↔ x ∈ l := by
  induction l with
  | nil => simp [sortByScore]
  | cons a as ih =>
    unfold sortByScore
    rw [mem_insertByScore, ih, List.mem_cons]

theorem single_hop_routes_shape (sde : SdeLoader) (fuel : Nat)
    (origin destination : String) (conns : Conns) (mg : Nat) :
    ∀ r ∈ single_hop_routes sde fuel origin destination conns mg,
      r.wormhole_count = 1 := by
  unfold single_hop_routes
  refine foldl_induct (fun rs : List Route => ∀ r ∈ rs, r.wormhole_count = 1) ?_ _ (by simp)
  intro rs entry hmem hP
  cases hfp : find_path sde fuel origin entry mg true with
  | none => simpa [hfp] using hP
  | some entry_path =>
    simp only [hfp]
    refine foldl_induct (fun rs2 : List Route => ∀ r ∈ rs2, r.wormhole_count = 1) ?_ _ hP
    intro rs2 ew hmem2 hP2
    cases hfp2 : find_path sde fuel ew.1 destination mg true with
    | none => simpa [hfp2] using hP2
    | some exit_path =>
      simp only [hfp2]
      intro r hr
      rcases List.mem_append.mp hr with h | h
      · exact hP2 r h
      · rcases List.mem_singleton.mp h with rfl
        rfl

theorem two_hop_routes_shape (sde : SdeLoader) (fuel : Nat)
    (origin destination : String) (conns : Conns) (mg : Nat) :
    ∀ r ∈ two_hop_routes sde fuel origin destination conns mg, twoHopOk r := by
  unfold two_hop_routes
  refine foldl_induct (fun rs : List Route => ∀ r ∈ rs, twoHopOk r) ?_ _ (by simp)
  intro rs entry hmem hP
  cases hfp : find_path sde fuel origin entry mg true with
  | none => simpa [hfp] using hP
  | some entry_path =>
    simp only [hfp]
    refine foldl_induct (fun rs2 : List Route => ∀ r ∈ rs2, twoHopOk r) ?_ _ hP
    intro rs2 mw hmem2 hP2
    cases hmid : connsFind conns mw.1 with
    | none => simpa [hmid] using hP2
    | some midList =>
      simp only [hmid]
      refine foldl_induct (fun rs3 : List Route => ∀ r ∈ rs3, twoHopOk r) ?_ _ hP2
      intro rs3 xw hmem3 hP3
      by_cases hx : xw.1 = entry
      · simpa [hx] using hP3
      · by_cases hty : mw.2.holeType = xw.2.holeType
        · simpa [hx, hty] using hP3
        · simp only [if_neg hx, if_neg hty]
          cases hfp2 : find_path sde fuel xw.1 destination mg true with
          | none => simpa [hfp2] using hP3
          | some exit_path =>
            simp only [hfp2]
            split_ifs with hcut
            · exact hP3
            · intro r hr
              rcases List.mem_append.mp hr with h | h
              · exact hP3 r h
              · rcases List.mem_singleton.mp h with rfl
                exact ⟨rfl, ⟨entry, mw.1, mw.2⟩, ⟨mw.1, xw.1, xw.2⟩, rfl,
                  hty, hx⟩

/-- **C6**: no two-hop candidate of the hybrid composer chains two wormholes
of the same hole type, and none exits at the system it entered the wormhole
network from. -/
theorem C6_two_hop_constraints (sde : SdeLoader) (fuel : Nat)
    (origin destination : String) (conns : Conns) (mg : Nat) (r : Route)
    (hr : r ∈ find_hybrid_routes sde fuel origin destination conns mg)
    (h2 : r.wormhole_count = 2) :
    ∃ hop1 hop2, r.hops = [hop1, hop2]
      ∧ hop1.wormhole.holeType ≠ hop2.wormhole.holeType
      ∧ hop2.exit_system ≠ hop1.entry_system := by
  unfold find_hybrid_routes at hr
  rw [mem_sortByScore] at hr
  rcases List.mem_append.mp hr with h | h
  · have h1 := single_hop_routes_shape sde fuel origin destination conns mg r h
    rw [h2] at h1
    cases h1
  · exact (two_hop_routes_shape sde fuel origin destination conns mg r h).2

/-- Witness for C6: the fixture route through the Barbican and Conflux
holes. -/
theorem C6_two_hop_constraints_witness :
    ∃ hop1 hop2, twoHopRoute.hops = [hop1, hop2]
      ∧ hop1.wormhole.holeType ≠ hop2.wormhole.holeType
      ∧ hop2.exit_system ≠ hop1.entry_system :=
  C6_two_hop_constraints twoHopSde 100 "O" "D" twoHopConns 15 twoHopRoute
    (by decide) rfl

/-! ## Pathfinder queue lemmas -/

theorem foldl_min_mem (rest : List PQEntry) :
    ∀ e : PQEntry,
      rest.foldl (fun b f => if entryLt f b then f else b) e ∈ e :: rest := by
  induction rest with
  | nil => intro e; simp
  | cons f rest ih =>
    intro e
    simp only [List.foldl_cons]
    have hmem := ih (if entryLt f e then f else e)
    rcases List.mem_cons.mp hmem with h | h
    · rw [h]
      by_cases hlt : entryLt f e
      · simp [hlt]
      · simp [hlt]
    · exact List.mem_cons_of_mem _ (List.mem_cons_of_mem _ h)

theorem popMin_mem {pq pq' : List PQEntry} {e : PQEntry}
    (h : popMin pq = some (e, pq')) : e ∈ pq := by
  unfold popMin at h
  cases pq with
  | nil => simp [pqMin] at h
  | cons a rest =>
    simp only [pqMin] at h
    injection h with h
    rw [Prod.mk.injEq] at h
    rw [← h.1]
    exact foldl_min_mem rest a

theorem pqRemove_subset {x y : PQEntry} {pq : List PQEntry}
    (h : x ∈ pqRemove y pq) : x ∈ pq := by
  induction pq with
  | nil => simp [pqRemove] at h
  | cons a rest ih =>
    unfold pqRemove at h
    split_ifs at h with he
    · exact List.mem_cons_of_mem _ h
    · rcases List.mem_cons.mp h with h | h
      · exact h ▸ List.mem_cons_self _ _
      · exact List.mem_cons_of_mem _ (ih h)

theorem popMin_rest_subset {pq pq' : List PQEntry} {e : PQEntry}
    (h : popMin pq = some (e, pq')) : ∀ x ∈ pq', x ∈ pq := by
  unfold popMin at h
  cases hm : pqMin pq with
  | none => rw [hm] at h; cases h
  | some m =>
    rw [hm] at h
    injection h with h
    rw [Prod.mk.injEq] at h
    intro x hx
    rw [← h.2] at hx
    exact pqRemove_subset hx

theorem pushNeighbors_mem {visited : List (Nat × Nat)} {cost : Nat}
    {path : List Nat} {w : Nat} {ns : List Nat} {pq : List PQEntry}
    {x : PQEntry} (h : x ∈ pushNeighbors visited cost path w ns pq) :
    x ∈ pq ∨ ∃ n ∈ ns, x = ⟨cost + w, n, path ++ [n]⟩ := by
  unfold pushNeighbors at h
  refine foldl_induct
    (fun q : List PQEntry => ∀ y ∈ q,
      y ∈ pq ∨ ∃ n ∈ ns, y = ⟨cost + w, n, path ++ [n]⟩) ?_ _ ?_ x h
  · intro q n hn hq y hy
    cases hv : visitedGet visited n with
    | none =>
      rw [hv] at hy
      rcases List.mem_append.mp hy with hmem | hmem
      · exact hq y hmem
      · exact Or.inr ⟨n, hn, List.mem_singleton.mp hmem⟩
    | some c =>
      rw [hv] at hy
      dsimp only at hy
      split_ifs at hy with hc
      · rcases List.mem_append.mp hy with hmem | hmem
        · exact hq y hmem
        · exact Or.inr ⟨n, hn, List.mem_singleton.mp hmem⟩
      · exact hq y hy
  · intro y hy
    exact Or.inl hy

theorem validChain_append {sde : SdeLoader} {useJB : Bool} {p : List Nat}
    {a b : Nat} (hc : validChain sde useJB p = true)
    (hl : p.getLast? = some a) (he : isEdgeB sde useJB a b = true) :
    validChain sde useJB (p ++ [b]) = true := by
  induction p with
  | nil => simp at hl
  | cons x rest ih =>
    cases rest with
    | nil =>
      simp at hl
      subst hl
      simp [validChain, he]
    | cons y rest2 =>
      rw [List.cons_append]
      have hsplit : validChain sde useJB (x :: y :: rest2) = true := hc
      simp only [validChain, Bool.and_eq_true] at hsplit
      have hl2 : (y :: rest2).getLast? = some a := by
        rw [List.getLast?_cons_cons] at hl
        exact hl
      have := ih hsplit.2 hl2
      rw [List.cons_append] at this
      simp only [validChain, Bool.and_eq_true]
      exact ⟨hsplit.1, this⟩

/-! ## Pathfinder soundness -/

theorem head?_append_left {α : Type} {l : List α} (l' : List α) {a : α}
    (h : l.head? = some a) : (l ++ l').head? = some a := by
  cases l with
  | nil => cases h
  | cons x xs => exact h

theorem isEdgeB_of_gate {sde : SdeLoader} {useJB : Bool} {a b : Nat}
    (h : b ∈ sde.system_jumps a) : isEdgeB sde useJB a b = true := by
  simp [isEdgeB]
  exact Or.inl h

theorem isEdgeB_of_jb {sde : SdeLoader} {a b : Nat}
    (h : b ∈ sde.jumpbridges a) : isEdgeB sde true a b = true := by
  simp [isEdgeB]
  exact Or.inr h

/-- A pushed neighbour entry keeps the queue invariant. -/
theorem entryOk_push {sde : SdeLoader} {useJB : Bool} {startId maxJumps : Nat}
    {e : PQEntry} (heok : entryOk sde useJB startId maxJumps e)
    (hlen : ¬ e.path.length > maxJumps * 2) {n w : Nat}
    (hedge : isEdgeB sde useJB e.node n = true) :
    entryOk sde useJB startId maxJumps ⟨e.cost + w, n, e.path ++ [n]⟩ := by
  obtain ⟨h1, h2, h3, h4, h5⟩ := heok
  refine ⟨by simp, head?_append_left _ h2, ?_, validChain_append h4 h3 hedge, ?_⟩
  · simp [List.getLast?_concat]
  · simp only [List.length_append, List.length_singleton]
    omega

theorem findPathAux_sound (sde : SdeLoader) (useJB : Bool)
    (endId maxJumps startId : Nat) :
    ∀ (fuel : Nat) (pq : List PQEntry) (visited : List (Nat × Nat)) (p : List Nat),
      (∀ e ∈ pq, entryOk sde useJB startId maxJumps e) →
      findPathAux sde useJB endId maxJumps fuel pq visited = some p →
      p ≠ [] ∧ p.head? = some startId ∧ p.getLast? = some endId
        ∧ validChain sde useJB p = true ∧ p.length ≤ maxJumps * 2 + 1 := by
  intro fuel
  induction fuel with
  | zero =>
    intro pq visited p hinv hres
    simp [findPathAux] at hres
  | succ f ih =>
    intro pq visited p hinv hres
    rw [findPathAux] at hres
    cases hpop : popMin pq with
    | none =>
      rw [hpop] at hres
      cases hres
    | some pair =>
      obtain ⟨e, pq'⟩ := pair
      rw [hpop] at hres
      dsimp only at hres
      have hemem : e ∈ pq := popMin_mem hpop
      have hesub := popMin_rest_subset hpop
      have heok := hinv e hemem
      have hinv' : ∀ x ∈ pq', entryOk sde useJB startId maxJumps x :=
        fun x hx => hinv x (hesub x hx)
      by_cases hjb : useJB = true
      · rw [if_pos hjb] at hres
        split_ifs at hres with hblock hend hlen
        · exact ih pq' visited p hinv' hres
        · injection hres with hres
          subst hres
          obtain ⟨h1, h2, h3, h4, h5⟩ := heok
          exact ⟨h1, h2, hend ▸ h3, h4, h5⟩
        · exact ih pq' _ p hinv' hres
        · refine ih _ _ p ?_ hres
          intro x hx
          rcases pushNeighbors_mem hx with hx1 | ⟨n, hn, rfl⟩
          · rcases pushNeighbors_mem hx1 with hx2 | ⟨n, hn, rfl⟩
            · exact hinv' x hx2
            · exact entryOk_push heok hlen (isEdgeB_of_gate hn)
          · exact entryOk_push heok hlen (hjb ▸ isEdgeB_of_jb hn)
      · rw [if_neg hjb] at hres
        split_ifs at hres with hblock hend hlen
        · exact ih pq' visited p hinv' hres
        · injection hres with hres
          subst hres
          obtain ⟨h1, h2, h3, h4, h5⟩ := heok
          exact ⟨h1, h2, hend ▸ h3, h4, h5⟩
        · exact ih pq' _ p hinv' hres
        · refine ih _ _ p ?_ hres
          intro x hx
          rcases pushNeighbors_mem hx with hx1 | ⟨n, hn, rfl⟩
          · exact hinv' x hx1
          · exact entryOk_push heok hlen (isEdgeB_of_gate hn)

/-! ## Claim theorems: the static pathfinder -/

theorem find_path_ids_sound {sde : SdeLoader} {useJB : Bool}
    {startId endId maxJumps fuel : Nat} {ids : List Nat}
    (h : find_path_ids sde useJB startId endId maxJumps fuel = some ids) :
    ids ≠ [] ∧ ids.head? = some startId ∧ ids.getLast? = some endId
      ∧ validChain sde useJB ids = true ∧ ids.length ≤ maxJumps * 2 + 1 := by
  refine findPathAux_sound sde useJB endId maxJumps startId fuel _ _ _ ?_ h
  intro e he
  rcases List.mem_singleton.mp he with rfl
  exact ⟨by simp, rfl, rfl, rfl, by simp⟩

/-- **C1 (amended)**: when `find_path` returns a result it is the name image
of a genuine chain of the union graph from the start id to the end id with
at most `2 × max_jumps` edge traversals (or the trivial one-system path);
the original minimality claim is refuted by
`C1_counterexample_optimality_fails`. -/
theorem C1_amended_returned_path_is_valid (sde : SdeLoader) (fuel : Nat)
    (start_system end_system : String) (max_jumps : Nat) (useJB : Bool)
    (path : List String)
    (h : find_path sde fuel start_system end_system max_jumps useJB = some path) :
    ∃ s e, validate_system_name start_system = some s
      ∧ validate_system_name end_system = some e
      ∧ ∃ sid eid, sde.system_name_to_id s = some sid
          ∧ sde.system_name_to_id e = some eid
          ∧ ((sid = eid ∧ path = [s])
             ∨ ∃ ids, find_path_ids sde useJB sid eid max_jumps fuel = some ids
                 ∧ path = ids.map sde.system_id_to_name
                 ∧ ids ≠ [] ∧ ids.head? = some sid ∧ ids.getLast? = some eid
                 ∧ validChain sde useJB ids = true
                 ∧ ids.length ≤ max_jumps * 2 + 1) := by
  unfold find_path at h
  cases hvs : validate_system_name start_system with
  | none => rw [hvs] at h; cases h
  | some s =>
    cases hve : validate_system_name end_system with
    | none => rw [hvs, hve] at h; cases h
    | some e =>
      rw [hvs, hve] at h
      dsimp only at h
      refine ⟨s, e, rfl, rfl, ?_⟩
      split_ifs at h with hemp hmj
      cases hsid : sde.system_name_to_id s with
      | none => rw [hsid] at h; cases h
      | some sid =>
        cases heid : sde.system_name_to_id e with
        | none => rw [hsid, heid] at h; cases h
        | some eid =>
          rw [hsid, heid] at h
          dsimp only at h
          refine ⟨sid, eid, rfl, rfl, ?_⟩
          split_ifs at h with hzero heq
          · injection h with h
            exact Or.inl ⟨heq, h.symm⟩
          · cases hids : find_path_ids sde useJB sid eid max_jumps fuel with
            | none => rw [hids] at h; cases h
            | some ids =>
              rw [hids] at h
              injection h with h
              obtain ⟨h1, h2, h3, h4, h5⟩ := find_path_ids_sound hids
              exact Or.inr ⟨ids, rfl, h.symm, h1, h2, h3, h4, h5⟩

/-- **C1 (counterexample)**: in `cgSde` the destination D is connected to S
by the gate chain S→N→D of 2 = 2×1 edges, within the allowed bound for
`max_jumps = 1`, yet `find_path` returns nothing at all — so it does not
return a minimal-cost path among bounded paths. -/
theorem C1_counterexample_optimality_fails :
    validChain cgSde true [1, 3, 4] = true
    ∧ cgSde.system_name_to_id "S" = some 1
    ∧ cgSde.system_name_to_id "D" = some 4
    ∧ List.length [1, 3, 4] - 1 ≤ 2 * 1
    ∧ find_path cgSde 100 "S" "D" 1 true = none := by decide

/-- Witness for the amended C1: S→N in `cgSde` is found via the jumpbridge
chain S→A→N. -/
theorem C1_amended_returned_path_is_valid_witness :
    ∃ s e, validate_system_name "S" = some s
      ∧ validate_system_name "N" = some e
      ∧ ∃ sid eid, cgSde.system_name_to_id s = some sid
          ∧ cgSde.system_name_to_id e = some eid
          ∧ ((sid = eid ∧ ["S", "A", "N"] = [s])
             ∨ ∃ ids, find_path_ids cgSde true sid eid 1 100 = some ids
                 ∧ ["S", "A", "N"] = ids.map cgSde.system_id_to_name
                 ∧ ids ≠ [] ∧ ids.head? = some sid ∧ ids.getLast? = some eid
                 ∧ validChain cgSde true ids = true
                 ∧ ids.length ≤ 1 * 2 + 1) :=
  C1_amended_returned_path_is_valid cgSde 100 "S" "N" 1 true ["S", "A", "N"]
    (by decide)

/-! ## The line universe: execution lemmas -/

theorem popMin_single (e : PQEntry) : popMin [e] = some (e, []) := by
  simp [popMin, pqMin, pqRemove]

theorem visitedGet_lineVisited {k x : Nat} (h : k < x) :
    visitedGet (lineVisited k) x = none := by
  unfold visitedGet
  have : (lineVisited k).find? (fun p => p.1 = x) = none := by
    rw [List.find?_eq_none]
    intro q hq
    unfold lineVisited at hq
    obtain ⟨i, hi, rfl⟩ := List.mem_map.mp hq
    have : i < k := List.mem_range.mp hi
    simp
    omega
  rw [this]

theorem visitedSet_absent {v : List (Nat × Nat)} {n c : Nat}
    (h : ∀ q ∈ v, q.1 ≠ n) : visitedSet v n c = v ++ [(n, c)] := by
  induction v with
  | nil => rfl
  | cons q rest ih =>
    obtain ⟨a, b⟩ := q
    unfold visitedSet
    rw [if_neg (h (a, b) (List.mem_cons_self _ _)), List.cons_append]
    rw [ih (fun q hq => h q (List.mem_cons_of_mem _ hq))]

theorem lineVisited_succ (k : Nat) :
    visitedSet (lineVisited k) (k + 1) (10 * k) = lineVisited (k + 1) := by
  rw [visitedSet_absent]
  · unfold lineVisited
    rw [List.range_succ, List.map_append]
    simp
  · intro q hq
    unfold lineVisited at hq
    obtain ⟨i, hi, rfl⟩ := List.mem_map.mp hq
    have : i < k := List.mem_range.mp hi
    simp
    omega

theorem linePath_succ (k : Nat) : linePath k ++ [k + 2] = linePath (k + 1) := by
  unfold linePath
  conv_rhs => rw [List.range_succ]
  rw [List.map_append]
  simp

theorem linePath_length (k : Nat) : (linePath k).length = k + 1 := by
  simp [linePath]

theorem visitedBlocks_lineVisited {k x c : Nat} (h : k < x) :
    visitedBlocks (lineVisited k) x c = false := by
  unfold visitedBlocks
  rw [visitedGet_lineVisited h]

theorem pushNeighbors_nil (v : List (Nat × Nat)) (cost : Nat) (path : List Nat)
    (w : Nat) (pq : List PQEntry) : pushNeighbors v cost path w [] pq = pq := rfl

theorem pushNeighbors_single_absent {v : List (Nat × Nat)} {cost : Nat}
    {path : List Nat} {w x : Nat} (h : visitedGet v x = none) :
    pushNeighbors v cost path w [x] [] = [⟨cost + w, x, path ++ [x]⟩] := by
  unfold pushNeighbors
  simp [h]

theorem lineSde_jumps {n i : Nat} (h1 : 1 ≤ i) (h2 : i ≤ n) :
    (lineSde n).system_jumps i = [i + 1] := by
  simp [lineSde, h1, h2]

theorem lineSde_jumpbridges (n i : Nat) : (lineSde n).jumpbridges i = [] := rfl

theorem line_run (m n : Nat) (hn : n = 2 * m) :
    ∀ (j fuel : Nat), j ≤ n → j + 1 ≤ fuel →
      findPathAux (lineSde n) true (n + 1) m fuel
        [⟨10 * (n - j), n - j + 1, linePath (n - j)⟩] (lineVisited (n - j))
      = some (linePath n) := by
  intro j
  induction j with
  | zero =>
    intro fuel hj hfuel
    cases fuel with
    | zero => omega
    | succ f =>
      simp only [Nat.sub_zero]
      rw [findPathAux, popMin_single]
      dsimp only
      rw [visitedBlocks_lineVisited (by omega)]
      simp only [Bool.false_eq_true, if_false]
      simp only [if_true]
  | succ j ih =>
    intro fuel hj hfuel
    cases fuel with
    | zero => omega
    | succ f =>
      have hk1 : n - (j + 1) + 1 = n - j := by omega
      rw [findPathAux, popMin_single]
      dsimp only
      rw [visitedBlocks_lineVisited (by omega)]
      simp only [Bool.false_eq_true, if_false]
      rw [if_neg (show ¬ (n - (j + 1) + 1 = n + 1) by omega)]
      rw [linePath_length]
      rw [if_neg (show ¬ (n - (j + 1) + 1 > m * 2) by omega)]
      simp only [if_true]
      rw [lineVisited_succ]
      rw [lineSde_jumps (by omega) (by omega)]
      rw [pushNeighbors_single_absent (visitedGet_lineVisited (by omega))]
      rw [lineSde_jumpbridges, pushNeighbors_nil]
      rw [linePath_succ]
      rw [show 10 * (n - (j + 1)) + 10 = 10 * (n - j) from by omega]
      rw [hk1]
      exact ih f (by omega) (by omega)

theorem lineSde_id_S (n : Nat) : (lineSde n).system_name_to_id "S" = some 1 := by
  simp [lineSde]

theorem lineSde_id_E (n : Nat) :
    (lineSde n).system_name_to_id "E" = some (n + 1) := by
  simp [lineSde]

theorem isEdgeB_line {n a b : Nat} :
    isEdgeB (lineSde n) true a b = true ↔ 1 ≤ a ∧ a ≤ n ∧ b = a + 1 := by
  unfold isEdgeB
  rw [lineSde_jumpbridges]
  show ((if 1 ≤ a ∧ a ≤ n then [a + 1] else []).contains b
    || (true && List.contains [] b)) = true ↔ _
  split_ifs with h
  · simp [List.contains]
    constructor
    · rintro rfl
      exact ⟨h.1, h.2, rfl⟩
    · rintro ⟨-, -, rfl⟩
      rfl
  · simp [List.contains]
    omega

theorem line_chain_length {n : Nat} :
    ∀ (p : List Nat) (a : Nat), validChain (lineSde n) true p = true →
      p.head? = some a → p.getLast? = some (a + (p.length - 1))
  | [], a => by
    intro _ h
    cases h
  | [x], a => by
    intro _ h
    injection h with h
    subst h
    simp
  | x :: y :: rest, a => by
    intro hc hh
    injection hh with hh
    subst hh
    simp only [validChain, Bool.and_eq_true] at hc
    have hy : y = x + 1 := (isEdgeB_line.mp hc.1).2.2
    have hrec := line_chain_length (y :: rest) y hc.2 rfl
    rw [List.getLast?_cons_cons, hrec]
    congr 1
    subst hy
    simp
    omega

/-- **C5**: any returned id-path uses at most `2 × maxJumps` edges, and the
bound is reached: on the directed line of `2 × m` gate edges the destination,
which no chain reaches in fewer than `2 × m` edges, is still returned. -/
theorem C5_double_maxjumps_bound (m fuel : Nat) (hm1 : 1 ≤ m) (hm100 : m ≤ 100)
    (hfuel : 2 * m + 1 ≤ fuel) :
    (∀ (sde : SdeLoader) (useJB : Bool) (a b mj f : Nat) (ids : List Nat),
        find_path_ids sde useJB a b mj f = some ids → ids.length - 1 ≤ 2 * mj)
    ∧ find_path (lineSde (2 * m)) fuel "S" "E" m true
        = some ((linePath (2 * m)).map (lineSde (2 * m)).system_id_to_name)
    ∧ (linePath (2 * m)).length - 1 = 2 * m
    ∧ (∀ p : List Nat, validChain (lineSde (2 * m)) true p = true →
        p.head? = some 1 → p.getLast? = some (2 * m + 1) →
        p.length - 1 = 2 * m) := by
  refine ⟨?_, ?_, ?_, ?_⟩
  · intro sde useJB a b mj f ids h
    have := (find_path_ids_sound h).2.2.2.2
    omega
  · unfold find_path
    rw [show validate_system_name "S" = some "S" from by decide,
        show validate_system_name "E" = some "E" from by decide]
    dsimp only
    rw [if_neg (show ¬(("S" : String) = "" ∨ ("E" : String) = "") from by decide)]
    rw [if_neg (show ¬(m < 1 ∨ m > 100) from by omega)]
    rw [lineSde_id_S, lineSde_id_E]
    dsimp only
    rw [if_neg (show ¬((1 : Nat) = 0 ∨ 2 * m + 1 = 0) from by omega)]
    rw [if_neg (show ¬((1 : Nat) = 2 * m + 1) from by omega)]
    have hrun := line_run m (2 * m) rfl (2 * m) fuel (le_refl _) (by omega)
    simp only [Nat.sub_self, Nat.mul_zero, Nat.zero_add] at hrun
    have hlp0 : linePath 0 = [1] := rfl
    have hlv0 : lineVisited 0 = [] := rfl
    rw [hlp0, hlv0] at hrun
    unfold find_path_ids
    rw [hrun]
  · rw [linePath_length]
    omega
  · intro p hc hh hl
    have := line_chain_length p 1 hc hh
    rw [this] at hl
    injection hl with hl
    omega

/-- Witness for C5 at `m = 1`, `fuel = 3`: the 2-edge line S→2→E with
`max_jumps = 1`. -/
theorem C5_double_maxjumps_bound_witness :
    (∀ (sde : SdeLoader) (useJB : Bool) (a b mj f : Nat) (ids : List Nat),
        find_path_ids sde useJB a b mj f = some ids → ids.length - 1 ≤ 2 * mj)
    ∧ find_path (lineSde (2 * 1)) 3 "S" "E" 1 true
        = some ((linePath (2 * 1)).map (lineSde (2 * 1)).system_id_to_name)
    ∧ (linePath (2 * 1)).length - 1 = 2 * 1
    ∧ (∀ p : List Nat, validChain (lineSde (2 * 1)) true p = true →
        p.head? = some 1 → p.getLast? = some (2 * 1 + 1) →
        p.length - 1 = 2 * 1) :=
  C5_double_maxjumps_bound 1 3 (by decide) (by decide) (by decide)

end Charon
